import Mathlib

/-!
Verification of the GLaDOS text-to-speech pipeline.

This file gives a shallow embedding of the two core subsystems of the
repository and proves the spec claims about them:

* the durable work queue of `voice-generator/worker/processor.py`
  (SQLite table `audio_entries`, the conditional-update claim primitive
  `claim_pending_entry`, `mark_success`, `mark_error`, and the main
  worker loop), and
* the streaming session protocol of `web/server.py` (`safe_send` and the
  per-message body of `websocket_handler`), together with the AI
  responder fallback of `glados.py` (`get_ai_response_with_session`).

The SQLite store is modelled as a list of rows in rowid order; each SQL
statement is a pure function on that list.  Each statement executes
atomically (SQLite serialises individual update statements), so the
concurrent claim race is modelled as an arbitrary interleaving of the
atomic SELECT and UPDATE steps performed by N claim attempts.
-/

namespace Glados

/-! ## Data model: the `audio_entries` table (processor.py / spec section 3) -/

/-- Job status column: `pending`, `processing`, `success`, `error`. -/
inductive Status where
  | pending
  | processing
  | success
  | error
deriving DecidableEq, Repr

/-- Boolean test `status = 'pending'` as used in the SQL WHERE clauses. -/
def Status.isPending : Status → Bool
  | .pending => true
  | _ => false

/-- One row of the `audio_entries` table. Timestamps are abstract ticks. -/
structure Job where
  id : Nat
  text : String
  created_at : Nat
  status : Status
  started_at : Option Nat := none
  completed_at : Option Nat := none
  audio_path : Option String := none
  duration_ms : Option Nat := none
  error_message : Option String := none
deriving DecidableEq, Repr

/-! ## JobStore operations (processor.py lines 58-118)

The table is a `List Job` in rowid scan order; ids are assigned
monotonically, so rowid order coincides with ascending id order.
-/

/-- The SELECT of `claim_pending_entry`:
`SELECT id, text FROM audio_entries WHERE status = 'pending'
 ORDER BY created_at ASC LIMIT 1`.
Scans the table and keeps the first row attaining the minimal
`created_at` among pending rows (SQLite scans in rowid order and a
strictly smaller key is required to displace the current best). -/
def selectOldestPending : List Job → Option Job
  | [] => none
  | j :: js =>
    if j.status.isPending then
      match selectOldestPending js with
      | none => some j
      | some a => if a.created_at < j.created_at then some a else some j
    else selectOldestPending js

/-- The conditional UPDATE of `claim_pending_entry`:
`UPDATE audio_entries SET status = 'processing', started_at = now
 WHERE id = ? AND status = 'pending'`.
Returns the updated table together with `cursor.rowcount`, the number of
rows matched by the WHERE clause. -/
def updateClaim (store : List Job) (entry_id now : Nat) : List Job × Nat :=
  (store.map fun j =>
      if j.id == entry_id && j.status.isPending then
        { j with status := .processing, started_at := some now }
      else j,
   (store.filter fun j => j.id == entry_id && j.status.isPending).length)

/-- `claim_pending_entry(conn)` (processor.py lines 58-91): select the
oldest pending row; if none, return None; otherwise run the conditional
update and return None when it matched zero rows (another worker claimed
the row), else the claimed `(id, text)`. -/
def claim_pending_entry (store : List Job) (now : Nat) :
    List Job × Option (Nat × String) :=
  match selectOldestPending store with
  | none => (store, none)
  | some row =>
    let upd := updateClaim store row.id now
    if upd.2 = 0 then (store, none)
    else (upd.1, some (row.id, row.text))

/-- Python slicing `str(error_message)[:500]`: keep the first 500
characters of the message. -/
def truncate500 (s : String) : String := String.mk (s.data.take 500)

/-- `mark_success(conn, entry_id, audio_path, duration_ms)`
(processor.py lines 94-105):
`UPDATE audio_entries SET status='success', audio_path=?, duration_ms=?,
 completed_at = now WHERE id = ?`.  Note: the WHERE clause matches on id
only; there is no status guard. -/
def mark_success (store : List Job) (entry_id : Nat) (audio_path : String)
    (duration_ms now : Nat) : List Job :=
  store.map fun j =>
    if j.id == entry_id then
      { j with
          status := .success
          audio_path := some audio_path
          duration_ms := some duration_ms
          completed_at := some now }
    else j

/-- `mark_error(conn, entry_id, error_message)` (processor.py lines
108-118):
`UPDATE audio_entries SET status='error', error_message=?,
 completed_at = now WHERE id = ?` with the message truncated to 500
characters.  The WHERE clause matches on id only; no status guard. -/
def mark_error (store : List Job) (entry_id : Nat) (error_message : String)
    (now : Nat) : List Job :=
  store.map fun j =>
    if j.id == entry_id then
      { j with
          status := .error
          error_message := some (truncate500 error_message)
          completed_at := some now }
    else j

/-! ## Worker loop (processor.py lines 153-197) -/

/-- `POLL_INTERVAL = 2.0` seconds, in whole time units. -/
def POLL_INTERVAL : Nat := 2

/-- What the environment does to one iteration of the `while True` loop:
a normal run (with the synthesizer behaviour for the claimed text, either
an audio path and duration or a raised failure), an unexpected exception
reaching the outer `except Exception` handler, or `KeyboardInterrupt`. -/
inductive IterEvent where
  | run (synth : String → Except String (String × Nat))
  | topFailure (message : String)
  | interrupt

/-- Result of one loop iteration: continue (optionally after a poll-interval
sleep) with the updated store, or stop (only via `break`). -/
inductive LoopOutcome where
  | next (store : List Job) (slept : Option Nat)
  | stopped (store : List Job)

/-- The store carried out of a loop iteration. -/
def LoopOutcome.store : LoopOutcome → List Job
  | .next s _ => s
  | .stopped s => s

/-- Whether the iteration left the loop. -/
def LoopOutcome.isStopped : LoopOutcome → Bool
  | .next _ _ => false
  | .stopped _ => true

/-- One iteration of the worker main loop (processor.py lines 174-197):
claim a pending entry; if one was claimed, synthesize and record the
outcome with `mark_success` or (on any synthesizer exception)
`mark_error`; if none, sleep for the poll interval.  `KeyboardInterrupt`
breaks the loop; any other top-level exception is logged and the loop
sleeps for the poll interval and retries. -/
def worker_loop_step (store : List Job) (now : Nat) : IterEvent → LoopOutcome
  | .interrupt => .stopped store
  | .topFailure _ => .next store (some POLL_INTERVAL)
  | .run synth =>
    match claim_pending_entry store now with
    | (s1, none) => .next s1 (some POLL_INTERVAL)
    | (s1, some (entry_id, text)) =>
      match synth text with
      | .ok (audio_path, duration_ms) =>
        .next (mark_success s1 entry_id audio_path duration_ms now) none
      | .error e => .next (mark_error s1 entry_id e now) none

/-- Allowed status evolution of a single row across one worker-loop
iteration: a pending row may move anywhere, a processing row may not
return to pending, a terminal row stays exactly as it is. -/
def statusMono : Status → Status → Prop
  | .pending, _ => True
  | .processing, t => t ≠ .pending
  | .success, t => t = .success
  | .error, t => t = .error

/-! ## Concurrent claim race (spec sections 4.1, 5, 8)

Each of N concurrent `claim_pending_entry` calls executes two atomic
database statements: the SELECT and the conditional UPDATE.  SQLite
serialises the individual statements, so a concurrent execution is an
arbitrary interleaving of these per-attempt steps.
-/

/-- Progress of one claim attempt: not yet run its SELECT; SELECT done
and row `(entry_id, text)` fetched, UPDATE not yet run; finished with
the returned value of `claim_pending_entry` (None or the claimed row). -/
inductive APhase where
  | ready
  | picked (entry_id : Nat) (text : String)
  | done (res : Option (Nat × String))
deriving DecidableEq, Repr

/-- Shared store plus the local state of every attempt. -/
structure RaceState where
  store : List Job
  att : Nat → APhase

/-- An atomic step of attempt `i`: its SELECT or its UPDATE. -/
inductive CAction where
  | sel (i : Nat)
  | upd (i : Nat)
deriving DecidableEq, Repr

/-- The attempt an action belongs to. -/
def actIdx : CAction → Nat
  | .sel i => i
  | .upd i => i

/-- Execute one atomic database statement of one attempt.  The SELECT
reads the current store; a fetch of no row finishes the attempt with
None.  The UPDATE re-checks `status = 'pending'`; `rowcount = 0` (a lost
race) finishes the attempt with None, otherwise the attempt commits and
returns the claimed row. -/
def raceStep (now : Nat) (s : RaceState) : CAction → RaceState
  | .sel i =>
    match s.att i with
    | .ready =>
      match selectOldestPending s.store with
      | none => { s with att := Function.update s.att i (.done none) }
      | some row => { s with att := Function.update s.att i (.picked row.id row.text) }
    | _ => s
  | .upd i =>
    match s.att i with
    | .picked entry_id text =>
      if (updateClaim s.store entry_id now).2 = 0 then
        { s with att := Function.update s.att i (.done none) }
      else
        { store := (updateClaim s.store entry_id now).1,
          att := Function.update s.att i (.done (some (entry_id, text))) }
    | _ => s

/-- Run a whole interleaving. -/
def raceRun (now : Nat) (s : RaceState) (sched : List CAction) : RaceState :=
  sched.foldl (raceStep now) s

/-- All attempts start before their SELECT. -/
def raceInit (store : List Job) : RaceState :=
  { store := store, att := fun _ => .ready }

/-- A schedule of N concurrent claim attempts: every action belongs to
an attempt below N, and each attempt performs exactly its SELECT followed
later by its UPDATE. -/
def ValidSched (N : Nat) (sched : List CAction) : Prop :=
  (∀ a ∈ sched, actIdx a < N) ∧
  ∀ i ∈ List.range N, sched.filter (fun a => actIdx a == i) = [.sel i, .upd i]

/-- Invariant of the claim race over a table whose only pending row is
`j`: either nobody has won yet — the store is untouched and every
attempt is ready or has fetched `j` — or the winning UPDATE has
committed: the store holds `j` as processing, exactly one attempt
finished with the claimed row, and every other attempt is ready, has a
stale fetch of `j`, or finished empty-handed. -/
def RaceInv (now : Nat) (S0 : List Job) (j : Job) (s : RaceState) : Prop :=
  (s.store = S0 ∧ ∀ i, s.att i = .ready ∨ s.att i = .picked j.id j.text)
  ∨ (s.store = (updateClaim S0 j.id now).1 ∧
     ∃ w, s.att w = .done (some (j.id, j.text)) ∧
       ∀ i, i ≠ w →
         s.att i = .ready ∨ s.att i = .picked j.id j.text ∨
         s.att i = .done none)

/-! ## Session coordinator (web/server.py) -/

/-- `SPINNER_MESSAGES['thinking']` from glados.py. -/
def SPINNER_MESSAGES_thinking : List String :=
  ["Aperture Science Testing Protocol...",
   "Consulting the mainframe...",
   "Processing your insignificant query...",
   "Calculating optimal sarcasm levels..."]

/-- `SPINNER_MESSAGES['generating']` from glados.py. -/
def SPINNER_MESSAGES_generating : List String :=
  ["Synthesizing vocal patterns...",
   "Warming up the neurotoxin-- voice module...",
   "Preparing test results...",
   "Generating audio for science...",
   "The cake is being prepared..."]

/-- `random.choice(SPINNER_MESSAGES['thinking'])`: some element of the
pool, selected by an arbitrary index. -/
def thinkingMessage (tIdx : Nat) : String :=
  SPINNER_MESSAGES_thinking.getD (tIdx % SPINNER_MESSAGES_thinking.length) ""

/-- `random.choice(SPINNER_MESSAGES['generating'])`. -/
def generatingMessage (gIdx : Nat) : String :=
  SPINNER_MESSAGES_generating.getD (gIdx % SPINNER_MESSAGES_generating.length) ""

/-- An outbound JSON frame of the wire protocol (spec section 6). -/
inductive Frame where
  | status (phase : String) (message : String)
  | response (text : String) (session_id : Option String)
      (audio_url : String) (audio_duration : Nat)
  | error (message : String)
deriving DecidableEq, Repr

/-- The phase of a frame as observed by the client: the `phase` field of
a status frame, else the frame type. -/
def Frame.phaseTag : Frame → String
  | .status p _ => p
  | .response _ _ _ _ => "response"
  | .error _ => "error"

/-- Phase sequence of an emitted frame list. -/
def phasesOf (l : List Frame) : List String := l.map Frame.phaseTag

/-- Whether a frame terminates a request (response or error). -/
def Frame.isTerminal : Frame → Bool
  | .status _ _ => false
  | .response _ _ _ _ => true
  | .error _ => true

/-- `safe_send(ws, data)` (server.py lines 38-48): if `ws.closed`, log
and return False without attempting the send; otherwise attempt
`ws.send_json`, returning True on success and False when it raises (the
exception is caught and logged). -/
def safe_send (closed : Bool) (sendResult : Except String Unit) : Bool :=
  if closed then false
  else
    match sendResult with
    | .ok _ => true
    | .error _ => false

/-- The two black-box collaborators used by the coordinator:
`get_ai_response_with_session` (returns reply text and new session id,
or raises) and the synthesis step `generate_tts` + file write (returns
the audio file name and its duration, or raises). -/
structure Collab where
  respond : String → Option String → Except String (String × Option String)
  synthesize : String → Except String (String × Nat)

/-- One inbound TEXT websocket message after `json.loads`: either the
parse raised `JSONDecodeError`, or an object carrying
`data.get('prompt', '')` and `data.get('session_id')` (a missing prompt
yields the empty string). -/
inductive Inbound where
  | invalidJson
  | msg (prompt : String) (session_id : Option String)

/-- The body of `websocket_handler` for one inbound TEXT message
(server.py lines 59-131).  `conn k` is the connection state observed by
the k-th `safe_send` call of this connection: whether `ws.closed` and
whether `send_json` would raise.  Returns the frames passed to
`safe_send` for this message, in order, together with the next send
counter.  The result of `safe_send` is checked for the two status
frames (a False aborts the request with `continue`) and ignored for
error and response frames, exactly as in the source. -/
def handle_message (c : Collab) (conn : Nat → Bool × Except String Unit)
    (k tIdx gIdx : Nat) : Inbound → List Frame × Nat
  | .invalidJson => ([.error "Invalid JSON"], k + 1)
  | .msg prompt session_id =>
    if prompt = "" then ([.error "No prompt provided"], k + 1)
    else
      let tf : Frame := .status "thinking" (thinkingMessage tIdx)
      if safe_send (conn k).1 (conn k).2 then
        match c.respond prompt session_id with
        | .error e => ([tf, .error e], k + 2)
        | .ok (text, new_session_id) =>
          if text = "" then ([tf, .error "Failed to get AI response"], k + 2)
          else
            let gf : Frame := .status "generating" (generatingMessage gIdx)
            if safe_send (conn (k + 1)).1 (conn (k + 1)).2 then
              match c.synthesize text with
              | .error e => ([tf, gf, .error e], k + 3)
              | .ok (audio_filename, audio_duration) =>
                ([tf, gf,
                  .response text new_session_id ("/audio/" ++ audio_filename)
                    audio_duration], k + 3)
            else ([tf, gf], k + 2)
      else ([tf], k + 1)

/-- The `async for msg in ws` loop of `websocket_handler`: handle each
inbound message in turn (each with its own random spinner choices); the
connection persists across messages. -/
def handle_messages (c : Collab) (conn : Nat → Bool × Except String Unit) :
    Nat → List (Inbound × Nat × Nat) → List Frame
  | _, [] => []
  | k, (inb, tIdx, gIdx) :: rest =>
    let r := handle_message c conn k tIdx gIdx inb
    r.1 ++ handle_messages c conn r.2 rest

/-- A connection that stays open and whose sends succeed. -/
def openConn : Nat → Bool × Except String Unit := fun _ => (false, .ok ())

/-! ## AI responder fallback (glados.py lines 106-128) -/

/-- Captured output of the `claude` subprocess call. -/
structure SubprocessResult where
  stdout : String
  stderr : String

/-- Python `str.strip()`: drop leading and trailing whitespace. -/
def pyStrip (s : String) : String :=
  String.mk
    (((s.data.dropWhile Char.isWhitespace).reverse.dropWhile
        Char.isWhitespace).reverse)

/-- Classification of the subprocess stdout by the parse-and-extract
sequence of glados.py lines 121-124:
`data = json.loads(result.stdout)`, then `data['result']`, then
`data['session_id']`.
* `notJson`: `json.loads` raises `JSONDecodeError`.
* `objMissingKey`: a JSON object without `result` or without
  `session_id`; the subscript raises `KeyError`.
* `nonObject`: valid JSON that is not an object (array, string, number,
  null); `data['result']` raises `TypeError`.
* `objFields text session`: an object carrying both fields. -/
inductive JsonShape where
  | notJson
  | objMissingKey
  | nonObject
  | objFields (text : String) (session : Option String)

/-- `get_ai_response_with_session(prompt, session_id)` after the
subprocess returns (glados.py lines 118-128), as a function of the
classification of its stdout.  An object with both fields returns them;
`JSONDecodeError` and `KeyError` are in the caught tuple and fall back
to `result.stdout.strip() or f"Error: {result.stderr}"` with no session
token; valid JSON that is not an object raises `TypeError` at
`data['result']`, which the `except (json.JSONDecodeError, KeyError,
IndexError)` clause does not catch, so the exception propagates out of
the call (`Except.error`). -/
def get_ai_response_with_session (shape : String → JsonShape)
    (r : SubprocessResult) : Except String (String × Option String) :=
  match shape r.stdout with
  | .objFields text new_session_id => .ok (text, new_session_id)
  | .notJson =>
    .ok (if pyStrip r.stdout = "" then "Error: " ++ r.stderr
         else pyStrip r.stdout, none)
  | .objMissingKey =>
    .ok (if pyStrip r.stdout = "" then "Error: " ++ r.stderr
         else pyStrip r.stdout, none)
  | .nonObject => .error "TypeError"

/-! ## Concrete instances used to evaluate the theorems -/

/-- A row already in the terminal `error` status. -/
def jC2 : Job :=
  { id := 1, text := "t", created_at := 0, status := .error,
    error_message := some "boom" }

/-- A processing row about to be marked failed. -/
def jC5 : Job := { id := 1, text := "hello", created_at := 0, status := .processing }

/-- An error message ten times the 500-character cap. -/
def msgC5 : String := String.mk (List.replicate 5000 'x')

/-- The row `jC5` after `mark_error` stored the truncated message. -/
def j2C5 : Job :=
  { jC5 with
      status := .error
      error_message := some (truncate500 msgC5)
      completed_at := some 9 }

/-- A single pending row for the worker-loop run. -/
def jC6 : Job := { id := 1, text := "speak", created_at := 0, status := .pending }

/-- A synthesizer that always raises. -/
def synthFailC6 : String → Except String (String × Nat) := fun _ => .error "boom"

/-- A responder whose reply text is empty, with a synthesizer that is
never reached. -/
def cC4 : Collab :=
  { respond := fun _ _ => .ok ("", none),
    synthesize := fun _ => .error "unused" }

/-- A responder returning an empty reply. -/
def respondEmptyC10 :
    String → Option String → Except String (String × Option String) :=
  fun _ _ => .ok ("", none)

/-- Two observably different synthesizers. -/
def synthAC10 : String → Except String (String × Nat) := fun _ => .error "a"

/-- Second synthesizer for the comparison. -/
def synthBC10 : String → Except String (String × Nat) := fun _ => .ok ("b.wav", 1)

/-- A run whose stdout is raw non-JSON text. -/
def shapeNotJsonC8 : String → JsonShape := fun _ => .notJson

/-- A run whose stdout is valid JSON but not an object. -/
def shapeNonObjC8 : String → JsonShape := fun _ => .nonObject

/-- Subprocess output that is a JSON array rather than an object. -/
def subprocC8b : SubprocessResult := { stdout := "[1, 2]", stderr := "" }

/-- A pending row claimed and processed by the C2 witness run. -/
def jC2b : Job := { id := 1, text := "s", created_at := 0, status := .pending }

/-- A synthesizer that succeeds. -/
def synthOkC2 : String → Except String (String × Nat) :=
  fun _ => .ok ("audio/1.wav", 5)

/-- A table whose only pending row is about to be raced over. -/
def jC1 : Job := { id := 1, text := "only", created_at := 0, status := .pending }

/-- The one-row table for the two-claimant race. -/
def storeC1 : List Job := [jC1]

/-- Both claimants SELECT before either UPDATE runs: the classic race. -/
def schedC1 : List CAction := [.sel 0, .sel 1, .upd 0, .upd 1]

/-- A table with two pending rows tied on `created_at` (ids 2 and 3), a
younger pending row (id 1) and a processing row (id 4). -/
def storeC3 : List Job :=
  [{ id := 1, text := "late", created_at := 5, status := .pending },
   { id := 2, text := "old a", created_at := 3, status := .pending },
   { id := 3, text := "old b", created_at := 3, status := .pending },
   { id := 4, text := "busy", created_at := 1, status := .processing }]

/-- Subprocess output that is not JSON. -/
def subprocC8 : SubprocessResult := { stdout := "raw output", stderr := "boom" }

/-! ## Theorems -/

/-- A status passes the `status = 'pending'` test exactly when it is
`pending`. -/
theorem Status.isPending_iff {s : Status} : s.isPending = true ↔ s = .pending := by
  cases s <;> simp [Status.isPending]

/-- Every status may stay unchanged. -/
theorem statusMono_refl (s : Status) : statusMono s s := by
  cases s <;> simp [statusMono]

/-- A table headed by a pending row always selects some row. -/
theorem sop_pending_isSome (j : Job) (js : List Job)
    (hp : j.status.isPending = true) :
    ∃ r, selectOldestPending (j :: js) = some r := by
  simp only [selectOldestPending, hp, if_true]
  cases hsel : selectOldestPending js with
  | none => exact ⟨j, by simp only [hsel]⟩
  | some a =>
    simp only [hsel]
    by_cases h : a.created_at < j.created_at
    · exact ⟨a, by rw [if_pos h]⟩
    · exact ⟨j, by rw [if_neg h]⟩

/-- The SELECT returns no row exactly when no row is pending. -/
theorem sop_eq_none_iff (s : List Job) :
    selectOldestPending s = none ↔ ∀ j ∈ s, j.status.isPending = false := by
  induction s with
  | nil => simp [selectOldestPending]
  | cons j js ih =>
    by_cases hp : j.status.isPending = true
    · constructor
      · intro h
        obtain ⟨r, hr⟩ := sop_pending_isSome j js hp
        rw [h] at hr
        exact absurd hr (by simp)
      · intro h
        exact absurd (h j (List.mem_cons_self j js)) (by simp [hp])
    · have hp2 : j.status.isPending = false := by simpa using hp
      simp only [selectOldestPending, hp2, if_false, Bool.false_eq_true]
      rw [ih]
      constructor
      · intro h x hx
        rcases List.mem_cons.mp hx with rfl | hx2
        · exact hp2
        · exact h x hx2
      · intro h x hx
        exact h x (List.mem_cons_of_mem j hx)

/-- The selected row belongs to the table and is pending. -/
theorem sop_mem_pending {s : List Job} {r : Job}
    (h : selectOldestPending s = some r) :
    r ∈ s ∧ r.status.isPending = true := by
  induction s generalizing r with
  | nil => simp [selectOldestPending] at h
  | cons j js ih =>
    by_cases hp : j.status.isPending = true
    · simp only [selectOldestPending, hp, if_true] at h
      cases hsel : selectOldestPending js with
      | none =>
        simp only [hsel] at h
        injection h with h
        subst h
        exact ⟨List.mem_cons_self j js, hp⟩
      | some a =>
        simp only [hsel] at h
        by_cases hlt : a.created_at < j.created_at
        · rw [if_pos hlt] at h
          injection h with h
          subst h
          obtain ⟨hm, hap⟩ := ih hsel
          exact ⟨List.mem_cons_of_mem j hm, hap⟩
        · rw [if_neg hlt] at h
          injection h with h
          subst h
          exact ⟨List.mem_cons_self j js, hp⟩
    · have hp2 : j.status.isPending = false := by simpa using hp
      simp only [selectOldestPending, hp2, if_false, Bool.false_eq_true] at h
      obtain ⟨hm, hap⟩ := ih h
      exact ⟨List.mem_cons_of_mem j hm, hap⟩

/-- The selected row has the minimal `created_at` among pending rows. -/
theorem sop_min {s : List Job} {r : Job} (h : selectOldestPending s = some r) :
    ∀ x ∈ s, x.status.isPending = true → r.created_at ≤ x.created_at := by
  induction s generalizing r with
  | nil => simp [selectOldestPending] at h
  | cons j js ih =>
    intro x hx hxp
    by_cases hp : j.status.isPending = true
    · simp only [selectOldestPending, hp, if_true] at h
      cases hsel : selectOldestPending js with
      | none =>
        simp only [hsel] at h
        injection h with h
        subst h
        rcases List.mem_cons.mp hx with rfl | hx2
        · exact Nat.le_refl _
        · exact absurd hxp (by simpa using (sop_eq_none_iff js).mp hsel x hx2)
      | some a =>
        simp only [hsel] at h
        by_cases hlt : a.created_at < j.created_at
        · rw [if_pos hlt] at h
          injection h with h
          subst h
          rcases List.mem_cons.mp hx with rfl | hx2
          · exact Nat.le_of_lt hlt
          · exact ih hsel x hx2 hxp
        · rw [if_neg hlt] at h
          injection h with h
          subst h
          rcases List.mem_cons.mp hx with rfl | hx2
          · exact Nat.le_refl _
          · exact Nat.le_trans (Nat.le_of_not_lt hlt) (ih hsel x hx2 hxp)
    · have hp2 : j.status.isPending = false := by simpa using hp
      simp only [selectOldestPending, hp2, if_false, Bool.false_eq_true] at h
      rcases List.mem_cons.mp hx with rfl | hx2
      · rw [hxp] at hp2
        exact absurd hp2 (by simp)
      · exact ih h x hx2 hxp

/-- In a table listed in ascending id order, the selected row has the
least id among the pending rows tied on the minimal `created_at`. -/
theorem sop_tie {s : List Job} {r : Job}
    (hsort : List.Pairwise (fun a b => a.id < b.id) s)
    (h : selectOldestPending s = some r) :
    ∀ x ∈ s, x.status.isPending = true → x.created_at = r.created_at →
      r.id ≤ x.id := by
  induction s generalizing r with
  | nil => simp [selectOldestPending] at h
  | cons j js ih =>
    obtain ⟨hhead, htail⟩ := List.pairwise_cons.mp hsort
    intro x hx hxp hxc
    by_cases hp : j.status.isPending = true
    · simp only [selectOldestPending, hp, if_true] at h
      cases hsel : selectOldestPending js with
      | none =>
        simp only [hsel] at h
        injection h with h
        subst h
        rcases List.mem_cons.mp hx with rfl | hx2
        · exact Nat.le_refl _
        · exact Nat.le_of_lt (hhead x hx2)
      | some a =>
        simp only [hsel] at h
        by_cases hlt : a.created_at < j.created_at
        · rw [if_pos hlt] at h
          injection h with h
          subst h
          rcases List.mem_cons.mp hx with rfl | hx2
          · exact absurd hlt (by rw [hxc]; exact Nat.lt_irrefl _)
          · exact ih htail hsel x hx2 hxp hxc
        · rw [if_neg hlt] at h
          injection h with h
          subst h
          rcases List.mem_cons.mp hx with rfl | hx2
          · exact Nat.le_refl _
          · exact Nat.le_of_lt (hhead x hx2)
    · have hp2 : j.status.isPending = false := by simpa using hp
      simp only [selectOldestPending, hp2, if_false, Bool.false_eq_true] at h
      rcases List.mem_cons.mp hx with rfl | hx2
      · rw [hxp] at hp2
        exact absurd hp2 (by simp)
      · exact ih htail h x hx2 hxp hxc

/-- When exactly one row is pending, the SELECT returns it. -/
theorem sop_singleton {s : List Job} {r : Job}
    (h : s.filter (fun x => x.status.isPending) = [r]) :
    selectOldestPending s = some r := by
  induction s with
  | nil => simp at h
  | cons j js ih =>
    by_cases hp : j.status.isPending = true
    · have hstep : (j :: js).filter (fun x => x.status.isPending)
          = j :: js.filter (fun x => x.status.isPending) :=
        List.filter_cons_of_pos hp
      rw [hstep] at h
      obtain ⟨rfl, hnil⟩ : j = r ∧ js.filter (fun x => x.status.isPending) = [] := by
        simpa using h
      have hnone : selectOldestPending js = none := by
        rw [sop_eq_none_iff]
        intro x hx
        have := List.filter_eq_nil_iff.mp hnil x hx
        simpa using this
      simp [selectOldestPending, hp, hnone]
    · have hstep : (j :: js).filter (fun x => x.status.isPending)
          = js.filter (fun x => x.status.isPending) :=
        List.filter_cons_of_neg hp
      rw [hstep] at h
      have hp2 : j.status.isPending = false := by simpa using hp
      simp only [selectOldestPending, hp2, if_false, Bool.false_eq_true]
      exact ih h

/-- Every pending row of a table whose pending filter is the singleton
`[r]` is `r` itself. -/
theorem pending_unique {s : List Job} {r : Job}
    (h : s.filter (fun x => x.status.isPending) = [r]) :
    ∀ x ∈ s, x.status.isPending = true → x = r := by
  intro x hx hxp
  have hmem : x ∈ s.filter (fun x => x.status.isPending) :=
    List.mem_filter.mpr ⟨hx, hxp⟩
  rw [h] at hmem
  simpa using hmem

/-- The conditional UPDATE matches exactly one row when the pending
filter is the singleton `[r]` and the target id is `r.id`. -/
theorem updateClaim_rowcount_one {s : List Job} {r : Job}
    (h : s.filter (fun x => x.status.isPending) = [r]) (now : Nat) :
    (updateClaim s r.id now).2 = 1 := by
  show (s.filter fun j => j.id == r.id && j.status.isPending).length = 1
  rw [← List.filter_filter, h]
  simp

/-- After the claim commits, no row of the table is pending. -/
theorem claimed_no_pending {s : List Job} {r : Job}
    (h : s.filter (fun x => x.status.isPending) = [r]) (now : Nat) :
    ((updateClaim s r.id now).1).filter (fun x => x.status.isPending) = [] := by
  rw [List.filter_eq_nil_iff]
  intro a ha
  obtain ⟨x, hx, rfl⟩ := List.mem_map.mp ha
  by_cases hxp : x.status.isPending = true
  · have hxr : x = r := pending_unique h x hx hxp
    have hc : (x.id == r.id && x.status.isPending) = true := by
      rw [hxr]
      simp [hxr ▸ hxp]
    rw [if_pos hc]
    simp [Status.isPending]
  · have hx2 : x.status.isPending = false := by simpa using hxp
    have hc : ¬((x.id == r.id && x.status.isPending) = true) := by
      simp [hx2]
    rw [if_neg hc]
    exact hxp

/-- A table with no pending row yields a zero rowcount for any
conditional claim UPDATE. -/
theorem updateClaim_rowcount_zero {s : List Job}
    (h : s.filter (fun x => x.status.isPending) = []) (entry_id now : Nat) :
    (updateClaim s entry_id now).2 = 0 := by
  show (s.filter fun j => j.id == entry_id && j.status.isPending).length = 0
  rw [← List.filter_filter, h]
  rfl

/-- Pointwise description of the conditional UPDATE: the rows with the
claimed id that are still pending move to processing with `started_at`
set; every other row is untouched. -/
theorem updateClaim_pointwise (s : List Job) (entry_id now : Nat) :
    List.Forall₂ (fun j j2 =>
      (j.id = entry_id ∧ j.status = .pending →
         j2 = { j with status := .processing, started_at := some now }) ∧
      (¬(j.id = entry_id ∧ j.status = .pending) → j2 = j))
      s (updateClaim s entry_id now).1 := by
  show List.Forall₂ _ s (s.map _)
  rw [List.forall₂_map_right_iff]
  rw [List.forall₂_same]
  intro x hx
  constructor
  · rintro ⟨h1, h2⟩
    have hc : (x.id == entry_id && x.status.isPending) = true := by
      simp [h1, h2, Status.isPending]
    simp only [hc, if_true]
  · intro hn
    by_cases hb : (x.id == entry_id && x.status.isPending) = true
    · exfalso
      apply hn
      obtain ⟨hb1, hb2⟩ := Bool.and_eq_true_iff.mp hb
      exact ⟨by simpa using hb1, Status.isPending_iff.mp hb2⟩
    · simp only [hb, if_false, Bool.false_eq_true]

/-- A claim call that returns None leaves the table unchanged. -/
theorem claim_none_eq {store : List Job} {now : Nat} {s1 : List Job}
    (h : claim_pending_entry store now = (s1, none)) : s1 = store := by
  unfold claim_pending_entry at h
  cases hsel : selectOldestPending store with
  | none =>
    rw [hsel] at h
    injection h with h1 _
    exact h1.symm
  | some row =>
    rw [hsel] at h
    simp only at h
    by_cases h0 : (updateClaim store row.id now).2 = 0
    · rw [if_pos h0] at h
      injection h with h1 _
      exact h1.symm
    · rw [if_neg h0] at h
      injection h with _ h2
      exact absurd h2 (by simp)

/-- A claim call that returns a row did select that row, committed its
conditional update, and saw a nonzero rowcount. -/
theorem claim_some_char {store : List Job} {now : Nat} {s1 : List Job}
    {entry_id : Nat} {text : String}
    (h : claim_pending_entry store now = (s1, some (entry_id, text))) :
    ∃ row, selectOldestPending store = some row ∧ entry_id = row.id ∧
      text = row.text ∧ s1 = (updateClaim store row.id now).1 ∧
      (updateClaim store row.id now).2 ≠ 0 := by
  unfold claim_pending_entry at h
  cases hsel : selectOldestPending store with
  | none =>
    rw [hsel] at h
    injection h with _ h2
    exact absurd h2 (by simp)
  | some row =>
    rw [hsel] at h
    simp only at h
    by_cases h0 : (updateClaim store row.id now).2 = 0
    · rw [if_pos h0] at h
      injection h with _ h2
      exact absurd h2 (by simp)
    · rw [if_neg h0] at h
      injection h with h1 h2
      injection h2 with h2
      injection h2 with h2a h2b
      exact ⟨row, rfl, h2a.symm, h2b.symm, h1.symm, h0⟩

/-- C2 counterexample: `mark_success` has no status guard (its WHERE
clause matches on id only), so it overwrites the terminal status `error`
with `success` — the transition error→success that the claim rules out. -/
theorem C2_counterexample :
    jC2.status = Status.error ∧
    (mark_success [jC2] 1 "out.raw" 1500 7).map Job.status = [Status.success] := by
  constructor <;> rfl

/-- C5: for every input message, `mark_error` stores exactly the first
500 characters of the message in the updated row, the stored value never
exceeds 500 characters, and a message within the cap is stored intact
(truncated, never rejected). -/
theorem C5_error_message_truncated (store : List Job) (entry_id : Nat)
    (msg : String) (now : Nat) :
    (∀ j2 ∈ mark_error store entry_id msg now, j2.id = entry_id →
        j2.error_message = some (truncate500 msg)) ∧
    (truncate500 msg).length ≤ 500 ∧
    (msg.length ≤ 500 → truncate500 msg = msg) := by
  refine ⟨?_, ?_, ?_⟩
  · intro j2 hmem hid
    simp only [mark_error, List.mem_map] at hmem
    obtain ⟨j, _, hj⟩ := hmem
    by_cases h : (j.id == entry_id) = true
    · rw [if_pos h] at hj
      rw [← hj]
    · rw [if_neg h] at hj
      rw [← hj] at hid
      exact absurd (by simpa using hid) (by simpa using h)
  · show (msg.data.take 500).length ≤ 500
    rw [List.length_take]
    exact Nat.min_le_left _ _
  · intro h
    unfold truncate500
    rw [List.take_of_length_le h]

/-- C5 witness: a message ten times the cap is stored truncated to 500
characters in the marked row. -/
theorem C5_witness :
    j2C5.error_message = some (truncate500 msgC5) ∧
    (truncate500 msgC5).length ≤ 500 :=
  ⟨(C5_error_message_truncated [jC5] 1 msgC5 9).1 j2C5
      (by simp [mark_error, jC5, j2C5]) rfl,
   (C5_error_message_truncated [jC5] 1 msgC5 9).2.1⟩

/-- C6: the worker loop stops only on `KeyboardInterrupt`; a synthesizer
failure on a claimed job records `mark_error` for that job and the loop
continues; any other top-level failure makes the loop sleep for the poll
interval and retry instead of exiting. -/
theorem C6_loop_never_exits (store : List Job) (now : Nat)
    (synth : String → Except String (String × Nat)) (m : String) (ev : IterEvent) :
    worker_loop_step store now .interrupt = .stopped store ∧
    worker_loop_step store now (.topFailure m) = .next store (some POLL_INTERVAL) ∧
    (∀ s1 entry_id text e,
        claim_pending_entry store now = (s1, some (entry_id, text)) →
        synth text = .error e →
        worker_loop_step store now (.run synth)
          = .next (mark_error s1 entry_id e now) none) ∧
    ((worker_loop_step store now ev).isStopped = true → ev = .interrupt) := by
  refine ⟨rfl, rfl, ?_, ?_⟩
  · intro s1 entry_id text e hclaim hsynth
    simp only [worker_loop_step]
    split
    · rename_i s1a heq
      rw [hclaim] at heq
      simp at heq
    · rename_i s1a eida txa heq
      rw [hclaim] at heq
      obtain ⟨h1, h2, h3⟩ : s1 = s1a ∧ entry_id = eida ∧ text = txa := by
        simpa using heq
      subst h1; subst h2; subst h3
      rw [hsynth]
  · intro h
    cases ev with
    | interrupt => rfl
    | topFailure m2 => simp [worker_loop_step, LoopOutcome.isStopped] at h
    | run synth2 =>
      have hf : (worker_loop_step store now (.run synth2)).isStopped = false := by
        simp only [worker_loop_step]
        split
        · rfl
        · split <;> rfl
      rw [hf] at h
      exact absurd h (by decide)

/-- C6 witness: on a store with one pending row, a synthesizer failure
yields a continued loop with the row marked failed. -/
theorem C6_witness :
    worker_loop_step [jC6] 5 (.run synthFailC6)
      = .next (mark_error
          [{ jC6 with status := Status.processing, started_at := some 5 }]
          1 "boom" 5) none :=
  (C6_loop_never_exits [jC6] 5 synthFailC6 "m" .interrupt).2.2.1
    [{ jC6 with status := Status.processing, started_at := some 5 }]
    1 "speak" "boom" rfl rfl

/-- C7: an inbound message whose prompt is missing or empty yields
exactly one error frame, independent of the collaborators and the
connection state; the receive loop then handles the remaining inbound
messages normally, so the connection stays usable. -/
theorem C7_empty_prompt (c : Collab) (conn : Nat → Bool × Except String Unit)
    (k tIdx gIdx t g : Nat) (sid : Option String)
    (rest : List (Inbound × Nat × Nat)) :
    handle_message c conn k tIdx gIdx (.msg "" sid)
      = ([.error "No prompt provided"], k + 1) ∧
    handle_messages c conn k ((.msg "" sid, t, g) :: rest)
      = Frame.error "No prompt provided" :: handle_messages c conn (k + 1) rest := by
  constructor
  · simp [handle_message]
  · simp [handle_messages, handle_message]

/-- C8 counterexample: output that is valid JSON but not an object — a
JSON array such as "[1, 2]" — is not parseable as the expected JSON,
yet the call does not fall back to the raw text: `data['result']`
raises `TypeError`, which the caught tuple `(json.JSONDecodeError,
KeyError, IndexError)` does not cover, so the exception propagates and
the call crashes instead of returning the raw output. -/
theorem C8_counterexample :
    get_ai_response_with_session shapeNonObjC8 subprocC8b
      = .error "TypeError" ∧
    get_ai_response_with_session shapeNonObjC8 subprocC8b
      ≠ .ok (pyStrip "[1, 2]", none) := by
  constructor
  · rfl
  · simp [get_ai_response_with_session, shapeNonObjC8]

/-- C8 amended: when the responder output fails JSON decoding, or is a
JSON object missing the expected fields, the call does not crash: it
returns the stripped raw output when that is non-empty, else an
explicitly synthesized error string, and the continuation token is
absent; but output that is valid JSON and not an object raises an
uncaught `TypeError`, so the call crashes on that class of unparseable
output. -/
theorem C8_responder_fallback (shape : String → JsonShape)
    (r : SubprocessResult) :
    ((shape r.stdout = .notJson ∨ shape r.stdout = .objMissingKey) →
      (pyStrip r.stdout ≠ "" →
        get_ai_response_with_session shape r = .ok (pyStrip r.stdout, none)) ∧
      (pyStrip r.stdout = "" →
        get_ai_response_with_session shape r
          = .ok ("Error: " ++ r.stderr, none))) ∧
    (shape r.stdout = .nonObject →
      get_ai_response_with_session shape r = .error "TypeError") := by
  constructor
  · intro h
    constructor
    · intro hne
      rcases h with h | h <;> simp [get_ai_response_with_session, h, hne]
    · intro he
      rcases h with h | h <;> simp [get_ai_response_with_session, h, he]
  · intro h
    simp [get_ai_response_with_session, h]

/-- C8 witness: raw non-JSON stdout falls back to the stripped raw
text with no session token, without crashing. -/
theorem C8_witness :
    get_ai_response_with_session shapeNotJsonC8 subprocC8
      = .ok (pyStrip "raw output", none) :=
  ((C8_responder_fallback shapeNotJsonC8 subprocC8).1 (Or.inl rfl)).1 (by decide)

/-- C9: `safe_send` checks `ws.closed` before attempting the send — on a
closed connection it returns False whatever the send would have done —
and a raising send is caught and reported as False; it returns True
exactly when the connection is open and the send succeeds, so no fault
ever escapes. -/
theorem C9_safe_send_no_fault (closed : Bool) (res : Except String Unit) :
    (closed = true → safe_send closed res = false) ∧
    (closed = true → ∀ r2, safe_send closed res = safe_send closed r2) ∧
    (∀ e, res = .error e → safe_send closed res = false) ∧
    (safe_send closed res = true ↔ closed = false ∧ res = Except.ok ()) := by
  refine ⟨?_, ?_, ?_, ?_⟩
  · intro h; simp [safe_send, h]
  · intro h r2; simp [safe_send, h]
  · intro e he; cases closed <;> simp [safe_send, he]
  · cases closed with
    | true => simp [safe_send]
    | false =>
      cases res with
      | ok a => cases a; simp [safe_send]
      | error e => simp [safe_send]

/-- C9 witness: a send attempt on a closed connection returns False. -/
theorem C9_witness : safe_send true (Except.ok ()) = false :=
  (C9_safe_send_no_fault true (Except.ok ())).1 rfl

/-- C10: when the responder returns empty reply text for a non-empty
prompt, the coordinator emits the thinking frame followed by a terminal
error frame — no generating frame — and the outcome is identical for any
two synthesizers, so the speech synthesizer is never consulted. -/
theorem C10_empty_reply
    (respond : String → Option String → Except String (String × Option String))
    (s1 s2 : String → Except String (String × Nat)) (prompt : String)
    (sid ns : Option String) (k tIdx gIdx : Nat)
    (hp : prompt ≠ "") (hr : respond prompt sid = .ok ("", ns)) :
    (handle_message ⟨respond, s1⟩ openConn k tIdx gIdx (.msg prompt sid)).1
      = [.status "thinking" (thinkingMessage tIdx),
         .error "Failed to get AI response"] ∧
    handle_message ⟨respond, s1⟩ openConn k tIdx gIdx (.msg prompt sid)
      = handle_message ⟨respond, s2⟩ openConn k tIdx gIdx (.msg prompt sid) := by
  constructor <;> simp [handle_message, hp, hr, openConn, safe_send]

/-- C10 witness: an empty AI reply for prompt "hi" yields exactly the
thinking frame then the error frame, for either synthesizer. -/
theorem C10_witness :
    (handle_message ⟨respondEmptyC10, synthAC10⟩ openConn 0 0 0 (.msg "hi" none)).1
      = [.status "thinking" (thinkingMessage 0),
         .error "Failed to get AI response"] :=
  (C10_empty_reply respondEmptyC10 synthAC10 synthBC10 "hi" none none 0 0 0
    (by decide) rfl).1

/-- C4 counterexample: with a responder whose reply text is empty, a
request completes (its last frame is terminal) with phase sequence
[thinking, error] — the generating phase is skipped, contradicting the
claim that every completed request emits exactly
[thinking, generating, (response|error)]. -/
theorem C4_counterexample :
    phasesOf (handle_message cC4 openConn 0 0 0 (.msg "hi" none)).1
      = ["thinking", "error"] ∧
    ((handle_message cC4 openConn 0 0 0 (.msg "hi" none)).1.getLast?.map
        Frame.isTerminal = some true) ∧
    ["thinking", "error"] ≠ ["thinking", "generating", "response"] ∧
    ["thinking", "error"] ≠ ["thinking", "generating", "error"] := by
  refine ⟨rfl, rfl, by decide, by decide⟩

/-- C4 amended: on an open connection the emitted phase sequence of one
request is always one of [error], [thinking, error],
[thinking, generating, error], [thinking, generating, response]: phases
are never reordered or repeated, a successful request emits all three
phases, and a failing request emits a prefix of the phases followed by a
terminal error frame. -/
theorem C4_amended_phase_order (c : Collab) (k tIdx gIdx : Nat) (inb : Inbound) :
    phasesOf (handle_message c openConn k tIdx gIdx inb).1 = ["error"] ∨
    phasesOf (handle_message c openConn k tIdx gIdx inb).1 = ["thinking", "error"] ∨
    phasesOf (handle_message c openConn k tIdx gIdx inb).1
      = ["thinking", "generating", "error"] ∨
    phasesOf (handle_message c openConn k tIdx gIdx inb).1
      = ["thinking", "generating", "response"] := by
  cases inb with
  | invalidJson => left; rfl
  | msg prompt sid =>
    by_cases hp : prompt = ""
    · left; simp [handle_message, hp, phasesOf, Frame.phaseTag]
    · cases hr : c.respond prompt sid with
      | error e =>
        right; left
        simp [handle_message, hp, hr, openConn, safe_send, phasesOf, Frame.phaseTag]
      | ok p =>
        obtain ⟨text, nsid⟩ := p
        by_cases ht : text = ""
        · right; left
          simp [handle_message, hp, hr, ht, openConn, safe_send, phasesOf,
            Frame.phaseTag]
        · cases hsy : c.synthesize text with
          | error e =>
            right; right; left
            simp [handle_message, hp, hr, ht, hsy, openConn, safe_send, phasesOf,
              Frame.phaseTag]
          | ok q =>
            obtain ⟨url, dur⟩ := q
            right; right; right
            simp [handle_message, hp, hr, ht, hsy, openConn, safe_send, phasesOf,
              Frame.phaseTag]

/-- C3: on a table listed in ascending id order that holds at least one
pending row, `claim_pending_entry` selects the pending row with minimal
`created_at` (ties broken by lowest id), returns its id and text, and
commits the conditional update, which sets status=processing and
`started_at` exactly on the still-pending rows with the selected id and
leaves every other row untouched. -/
theorem C3_claim_oldest_pending (store : List Job) (now : Nat)
    (hsort : List.Pairwise (fun a b => a.id < b.id) store)
    (hpend : ∃ j ∈ store, j.status.isPending = true) :
    ∃ row, selectOldestPending store = some row ∧ row ∈ store ∧
      row.status = .pending ∧
      (∀ x ∈ store, x.status = .pending → row.created_at ≤ x.created_at) ∧
      (∀ x ∈ store, x.status = .pending → x.created_at = row.created_at →
          row.id ≤ x.id) ∧
      claim_pending_entry store now
        = ((updateClaim store row.id now).1, some (row.id, row.text)) ∧
      List.Forall₂ (fun j j2 =>
        (j.id = row.id ∧ j.status = .pending →
           j2 = { j with status := .processing, started_at := some now }) ∧
        (¬(j.id = row.id ∧ j.status = .pending) → j2 = j))
        store (updateClaim store row.id now).1 := by
  obtain ⟨j0, hj0, hj0p⟩ := hpend
  cases hsel : selectOldestPending store with
  | none =>
    have := (sop_eq_none_iff store).mp hsel j0 hj0
    rw [hj0p] at this
    exact absurd this (by simp)
  | some row =>
    obtain ⟨hm, hp⟩ := sop_mem_pending hsel
    have hrowcount : (updateClaim store row.id now).2 ≠ 0 := by
      have hmemf : row ∈ store.filter
          (fun j => j.id == row.id && j.status.isPending) :=
        List.mem_filter.mpr ⟨hm, by simp [hp]⟩
      intro h0
      have hnil : store.filter (fun j => j.id == row.id && j.status.isPending)
          = [] := List.length_eq_zero.mp h0
      rw [hnil] at hmemf
      exact absurd hmemf (by simp)
    refine ⟨row, rfl, hm, Status.isPending_iff.mp hp, ?_, ?_, ?_,
      updateClaim_pointwise store row.id now⟩
    · intro x hx hxp
      exact sop_min hsel x hx (Status.isPending_iff.mpr hxp)
    · intro x hx hxp hxc
      exact sop_tie hsort hsel x hx (Status.isPending_iff.mpr hxp) hxc
    · unfold claim_pending_entry
      rw [hsel]
      simp only [hrowcount, if_false]

/-- C3 witness: on a table with rows created at ticks 5, 3, 3, 1 (the
last one already processing), the claim selects the pending row with
`created_at = 3` and the lower id 2. -/
theorem C3_witness :
    ∃ row, selectOldestPending storeC3 = some row ∧ row ∈ storeC3 ∧
      row.status = .pending ∧
      (∀ x ∈ storeC3, x.status = .pending → row.created_at ≤ x.created_at) ∧
      (∀ x ∈ storeC3, x.status = .pending → x.created_at = row.created_at →
          row.id ≤ x.id) ∧
      claim_pending_entry storeC3 7
        = ((updateClaim storeC3 row.id 7).1, some (row.id, row.text)) ∧
      List.Forall₂ (fun j j2 =>
        (j.id = row.id ∧ j.status = .pending →
           j2 = { j with status := .processing, started_at := some 7 }) ∧
        (¬(j.id = row.id ∧ j.status = .pending) → j2 = j))
        storeC3 (updateClaim storeC3 row.id 7).1 :=
  C3_claim_oldest_pending storeC3 7 (by decide) (by decide)

/-- Marking a claimed row with a guard-free by-id UPDATE keeps every id
and moves statuses monotonically, provided the marked id is the id of a
row that was pending before the claim. -/
theorem markStep_forall₂ (store : List Job) (row : Job) (now : Nat)
    (hids : (store.map Job.id).Nodup) (hrmem : row ∈ store)
    (hrpend : row.status.isPending = true)
    (g : Job → Job) (hgid : ∀ y, (g y).id = y.id)
    (hgother : ∀ y, y.id ≠ row.id → g y = y) :
    List.Forall₂ (fun j j2 => j.id = j2.id ∧ statusMono j.status j2.status)
      store (((updateClaim store row.id now).1).map g) := by
  show List.Forall₂ _ store ((store.map _).map g)
  rw [List.map_map, List.forall₂_map_right_iff, List.forall₂_same]
  intro x hx
  simp only [Function.comp_apply]
  by_cases hxid : x.id = row.id
  · have hxr : x = row :=
      List.inj_on_of_nodup_map hids hx hrmem (by rw [hxid])
    subst hxr
    have hcond : (x.id == x.id && x.status.isPending) = true := by
      simp [hrpend]
    refine ⟨?_, ?_⟩
    · rw [hgid, if_pos hcond]
    · rw [Status.isPending_iff.mp hrpend]
      simp [statusMono]
  · have hcond : ¬((x.id == row.id && x.status.isPending) = true) := by
      simp [hxid]
    rw [if_neg hcond, hgother x hxid]
    exact ⟨rfl, statusMono_refl x.status⟩

/-- C2 amended: `mark_success` and `mark_error` themselves carry no
status guard (see the counterexample), but the worker loop invokes them
only on the row it just claimed out of pending, so every loop iteration
moves each row's status monotonically along
pending→processing→(success|error): ids are preserved and no iteration
produces success→processing or error→success, nor touches a terminal
row. -/
theorem C2_worker_status_monotonic (store : List Job) (now : Nat)
    (ev : IterEvent) (hids : (store.map Job.id).Nodup) :
    List.Forall₂ (fun j j2 => j.id = j2.id ∧ statusMono j.status j2.status)
      store (worker_loop_step store now ev).store := by
  have hrefl : List.Forall₂
      (fun j j2 => j.id = j2.id ∧ statusMono j.status j2.status) store store :=
    List.forall₂_same.mpr fun x _ => ⟨rfl, statusMono_refl x.status⟩
  cases ev with
  | interrupt => exact hrefl
  | topFailure m => exact hrefl
  | run synth =>
    rcases hc : claim_pending_entry store now with ⟨s1, r⟩
    cases r with
    | none =>
      have heq : worker_loop_step store now (.run synth)
          = .next s1 (some POLL_INTERVAL) := by
        simp only [worker_loop_step, hc]
      rw [heq]
      have hs1 : s1 = store := claim_none_eq hc
      subst hs1
      exact hrefl
    | some p =>
      obtain ⟨entry_id, text⟩ := p
      cases hsy : synth text with
      | ok q =>
        obtain ⟨audio_path, duration_ms⟩ := q
        have heq : worker_loop_step store now (.run synth)
            = .next (mark_success s1 entry_id audio_path duration_ms now) none := by
          simp only [worker_loop_step, hc, hsy]
        rw [heq]
        obtain ⟨row, hsel, rfl, rfl, hs1, _⟩ := claim_some_char hc
        subst hs1
        obtain ⟨hrmem, hrpend⟩ := sop_mem_pending hsel
        exact markStep_forall₂ store row now hids hrmem hrpend
          (fun j => if j.id == row.id then
            { j with
                status := .success
                audio_path := some audio_path
                duration_ms := some duration_ms
                completed_at := some now }
          else j)
          (fun y => by
            dsimp only
            by_cases hb : (y.id == row.id) = true
            · rw [if_pos hb]
            · rw [if_neg hb])
          (fun y hy => by
            dsimp only
            rw [if_neg (by simp [hy])])
      | error e =>
        have heq : worker_loop_step store now (.run synth)
            = .next (mark_error s1 entry_id e now) none := by
          simp only [worker_loop_step, hc, hsy]
        rw [heq]
        obtain ⟨row, hsel, rfl, rfl, hs1, _⟩ := claim_some_char hc
        subst hs1
        obtain ⟨hrmem, hrpend⟩ := sop_mem_pending hsel
        exact markStep_forall₂ store row now hids hrmem hrpend
          (fun j => if j.id == row.id then
            { j with
                status := .error
                error_message := some (truncate500 e)
                completed_at := some now }
          else j)
          (fun y => by
            dsimp only
            by_cases hb : (y.id == row.id) = true
            · rw [if_pos hb]
            · rw [if_neg hb])
          (fun y hy => by
            dsimp only
            rw [if_neg (by simp [hy])])

/-- C2 witness for the amended claim: one pending row claimed and marked
successful evolves monotonically. -/
theorem C2_witness :
    List.Forall₂ (fun j j2 => j.id = j2.id ∧ statusMono j.status j2.status)
      [jC2b] (worker_loop_step [jC2b] 9 (.run synthOkC2)).store :=
  C2_worker_status_monotonic [jC2b] 9 (.run synthOkC2) (by decide)

/-- An action of another attempt leaves attempt i's local state alone. -/
theorem raceStep_att_other (now : Nat) (s : RaceState) (a : CAction) (k : Nat)
    (hne : actIdx a ≠ k) : (raceStep now s a).att k = s.att k := by
  cases a with
  | sel i =>
    have hik : i ≠ k := hne
    cases hai : s.att i with
    | ready =>
      cases hsel : selectOldestPending s.store with
      | none => simp [raceStep, hai, hsel, Function.update_noteq (Ne.symm hik)]
      | some row => simp [raceStep, hai, hsel, Function.update_noteq (Ne.symm hik)]
    | picked eid tx => simp [raceStep, hai]
    | done r => simp [raceStep, hai]
  | upd i =>
    have hik : i ≠ k := hne
    cases hai : s.att i with
    | ready => simp [raceStep, hai]
    | picked eid tx =>
      by_cases h0 : (updateClaim s.store eid now).2 = 0
      · simp [raceStep, hai, h0, Function.update_noteq (Ne.symm hik)]
      · simp [raceStep, hai, h0, Function.update_noteq (Ne.symm hik)]
    | done r => simp [raceStep, hai]

/-- No database step ever returns an attempt to the ready state. -/
theorem raceStep_not_ready (now : Nat) (s : RaceState) (a : CAction) (k : Nat)
    (h : s.att k ≠ .ready) : (raceStep now s a).att k ≠ .ready := by
  by_cases hk : actIdx a = k
  · cases a with
    | sel i =>
      have hik : i = k := hk
      subst hik
      cases hai : s.att i with
      | ready => exact absurd hai h
      | picked eid tx => simp [raceStep, hai, h]
      | done r => simp [raceStep, hai, h]
    | upd i =>
      have hik : i = k := hk
      subst hik
      cases hai : s.att i with
      | ready => exact absurd hai h
      | picked eid tx =>
        by_cases h0 : (updateClaim s.store eid now).2 = 0
        · simp [raceStep, hai, h0]
        · simp [raceStep, hai, h0]
      | done r => simp [raceStep, hai, h]
  · rw [raceStep_att_other now s a k hk]
    exact h

/-- After its SELECT, an attempt is never in the ready state. -/
theorem raceStep_sel_not_ready (now : Nat) (s : RaceState) (i : Nat) :
    (raceStep now s (.sel i)).att i ≠ .ready := by
  cases hai : s.att i with
  | ready =>
    cases hsel : selectOldestPending s.store with
    | none => simp [raceStep, hai, hsel]
    | some row => simp [raceStep, hai, hsel]
  | picked eid tx => simp [raceStep, hai]
  | done r => simp [raceStep, hai]

/-- The UPDATE of an attempt that is past its SELECT finishes it. -/
theorem raceStep_upd_done (now : Nat) (s : RaceState) (i : Nat)
    (h : s.att i ≠ .ready) :
    ∃ r, (raceStep now s (.upd i)).att i = .done r := by
  cases hai : s.att i with
  | ready => exact absurd hai h
  | picked eid tx =>
    by_cases h0 : (updateClaim s.store eid now).2 = 0
    · exact ⟨none, by simp [raceStep, hai, h0]⟩
    · exact ⟨some (eid, tx), by simp [raceStep, hai, h0]⟩
  | done r => exact ⟨r, by simp [raceStep, hai]⟩

/-- A finished attempt stays finished with the same result. -/
theorem raceStep_done_stable (now : Nat) (s : RaceState) (a : CAction) (k : Nat)
    {r : Option (Nat × String)} (h : s.att k = .done r) :
    (raceStep now s a).att k = .done r := by
  by_cases hk : actIdx a = k
  · cases a with
    | sel i =>
      have hik : i = k := hk
      subst hik
      simp [raceStep, h]
    | upd i =>
      have hik : i = k := hk
      subst hik
      simp [raceStep, h]
  · rw [raceStep_att_other now s a k hk]
    exact h

/-- Running any suffix keeps an attempt out of the ready state. -/
theorem raceRun_not_ready (now : Nat) (s : RaceState) (l : List CAction) (k : Nat)
    (h : s.att k ≠ .ready) : (raceRun now s l).att k ≠ .ready := by
  induction l generalizing s with
  | nil => exact h
  | cons a l ih => exact ih (raceStep now s a) (raceStep_not_ready now s a k h)

/-- Running any suffix keeps a finished attempt at its result. -/
theorem raceRun_done_stable (now : Nat) (s : RaceState) (l : List CAction) (k : Nat)
    {r : Option (Nat × String)} (h : s.att k = .done r) :
    (raceRun now s l).att k = .done r := by
  induction l generalizing s with
  | nil => exact h
  | cons a l ih => exact ih (raceStep now s a) (raceStep_done_stable now s a k h)

/-- A schedule that never mentions attempt k leaves its state alone. -/
theorem raceRun_att_other (now : Nat) (s : RaceState) (l : List CAction) (k : Nat)
    (h : ∀ a ∈ l, actIdx a ≠ k) : (raceRun now s l).att k = s.att k := by
  induction l generalizing s with
  | nil => rfl
  | cons a l ih =>
    rw [raceRun, List.foldl_cons]
    rw [show List.foldl (raceStep now) (raceStep now s a) l
        = raceRun now (raceStep now s a) l from rfl]
    rw [ih (raceStep now s a) (fun b hb => h b (List.mem_cons_of_mem a hb))]
    exact raceStep_att_other now s a k (h a (List.mem_cons_self a l))

/-- Decompose a list around the head of its filtered image. -/
theorem filter_split_cons {α : Type} (p : α → Bool) (l : List α) (a : α)
    (r : List α) (h : l.filter p = a :: r) :
    ∃ l1 l2, l = l1 ++ a :: l2 ∧ l2.filter p = r := by
  induction l with
  | nil => simp at h
  | cons x xs ih =>
    by_cases hx : p x = true
    · have hstep : (x :: xs).filter p = x :: xs.filter p :=
        List.filter_cons_of_pos hx
      rw [hstep] at h
      obtain ⟨h1, h2⟩ : x = a ∧ xs.filter p = r := by simpa using h
      exact ⟨[], xs, by rw [h1]; rfl, h2⟩
    · have hstep : (x :: xs).filter p = xs.filter p :=
        List.filter_cons_of_neg hx
      rw [hstep] at h
      obtain ⟨l1, l2, hl, hf⟩ := ih h
      exact ⟨x :: l1, l2, by rw [hl]; rfl, hf⟩

/-- An attempt whose SELECT and UPDATE both occur, in that order,
finishes with some result. -/
theorem sched_done (now : Nat) (s0 : RaceState) (sched : List CAction) (i : Nat)
    (h : sched.filter (fun a => actIdx a == i) = [.sel i, .upd i]) :
    ∃ r, (raceRun now s0 sched).att i = .done r := by
  obtain ⟨l1, l2x, hl, hf⟩ :=
    filter_split_cons (fun a => actIdx a == i) sched (.sel i) [.upd i] h
  obtain ⟨l2, l3, hl2, _⟩ :=
    filter_split_cons (fun a => actIdx a == i) l2x (.upd i) [] hf
  subst hl2
  subst hl
  have h1 : raceRun now s0 (l1 ++ CAction.sel i :: (l2 ++ CAction.upd i :: l3))
      = raceRun now (raceStep now (raceRun now (raceStep now
          (raceRun now s0 l1) (.sel i)) l2) (.upd i)) l3 := by
    simp [raceRun, List.foldl_append]
  rw [h1]
  have h2 : (raceStep now (raceRun now s0 l1) (.sel i)).att i ≠ .ready :=
    raceStep_sel_not_ready now (raceRun now s0 l1) i
  have h3 : (raceRun now (raceStep now (raceRun now s0 l1) (.sel i)) l2).att i
      ≠ .ready := raceRun_not_ready now _ l2 i h2
  obtain ⟨r, hr⟩ := raceStep_upd_done now _ i h3
  exact ⟨r, raceRun_done_stable now _ l3 i hr⟩

/-- One database statement preserves the race invariant. -/
theorem raceInv_step (now : Nat) (S0 : List Job) (j : Job)
    (hpend : S0.filter (fun x => x.status.isPending) = [j])
    (s : RaceState) (hinv : RaceInv now S0 j s) (a : CAction) :
    RaceInv now S0 j (raceStep now s a) := by
  have hsome : selectOldestPending S0 = some j := sop_singleton hpend
  have hselC : selectOldestPending (updateClaim S0 j.id now).1 = none := by
    rw [sop_eq_none_iff]
    intro x hx
    have := List.filter_eq_nil_iff.mp (claimed_no_pending hpend now) x hx
    simpa using this
  cases a with
  | sel i =>
    cases hai : s.att i with
    | ready =>
      cases hinv with
      | inl hA =>
        obtain ⟨hst, hall⟩ := hA
        left
        refine ⟨?_, ?_⟩
        · simp [raceStep, hai, hst, hsome]
        · intro k
          by_cases hk : k = i
          · subst hk
            right
            simp [raceStep, hai, hst, hsome, Function.update_same]
          · have : (raceStep now s (.sel i)).att k = s.att k :=
              raceStep_att_other now s (.sel i) k (fun hik => hk hik.symm)
            rw [this]
            exact hall k
      | inr hB =>
        obtain ⟨hst, w, hw, hothers⟩ := hB
        right
        have hwne : w ≠ i := by
          intro hwi
          rw [hwi, hai] at hw
          exact absurd hw (by simp)
        refine ⟨?_, w, ?_, ?_⟩
        · simp [raceStep, hai, hst, hselC]
        · have : (raceStep now s (.sel i)).att w = s.att w :=
            raceStep_att_other now s (.sel i) w (fun hik => hwne hik.symm)
          rw [this]
          exact hw
        · intro k hk
          by_cases hki : k = i
          · subst hki
            right; right
            simp [raceStep, hai, hst, hselC, Function.update_same]
          · have : (raceStep now s (.sel i)).att k = s.att k :=
              raceStep_att_other now s (.sel i) k (fun hik => hki (hik.symm ▸ rfl))
            rw [this]
            exact hothers k hk
    | picked eid tx =>
      have hid : raceStep now s (.sel i) = s := by simp [raceStep, hai]
      rw [hid]
      exact hinv
    | done r =>
      have hid : raceStep now s (.sel i) = s := by simp [raceStep, hai]
      rw [hid]
      exact hinv
  | upd i =>
    cases hai : s.att i with
    | ready =>
      have hid : raceStep now s (.upd i) = s := by simp [raceStep, hai]
      rw [hid]
      exact hinv
    | done r =>
      have hid : raceStep now s (.upd i) = s := by simp [raceStep, hai]
      rw [hid]
      exact hinv
    | picked eid tx =>
      cases hinv with
      | inl hA =>
        obtain ⟨hst, hall⟩ := hA
        have hj : eid = j.id ∧ tx = j.text := by
          rcases hall i with h | h
          · rw [hai] at h
            exact absurd h (by simp)
          · rw [hai] at h
            simpa using h
        obtain ⟨rfl, rfl⟩ := hj
        have hne0 : ¬((updateClaim S0 j.id now).2 = 0) := by
          rw [updateClaim_rowcount_one hpend now]
          exact one_ne_zero
        right
        refine ⟨?_, i, ?_, ?_⟩
        · simp [raceStep, hai, hne0, hst]
        · simp [raceStep, hai, hne0, hst, Function.update_same]
        · intro k hk
          have hstep : (raceStep now s (.upd i)).att k = s.att k :=
            raceStep_att_other now s (.upd i) k (fun hik => hk hik.symm)
          rw [hstep]
          rcases hall k with h | h
          · exact Or.inl h
          · exact Or.inr (Or.inl h)
      | inr hB =>
        obtain ⟨hst, w, hw, hothers⟩ := hB
        have hwne : w ≠ i := by
          intro hwi
          rw [hwi, hai] at hw
          exact absurd hw (by simp)
        have hj : eid = j.id := by
          rcases hothers i (fun h => hwne h.symm) with h | h | h
          · rw [hai] at h
            exact absurd h (by simp)
          · rw [hai] at h
            exact ((by simpa using h : eid = j.id ∧ tx = j.text)).1
          · rw [hai] at h
            exact absurd h (by simp)
        subst hj
        have hrc : (updateClaim (updateClaim S0 j.id now).1 j.id now).2 = 0 :=
          updateClaim_rowcount_zero (claimed_no_pending hpend now) j.id now
        right
        refine ⟨?_, w, ?_, ?_⟩
        · simp [raceStep, hai, hst, hrc]
        · have hstep : (raceStep now s (.upd i)).att w = s.att w :=
            raceStep_att_other now s (.upd i) w (fun hik => hwne hik.symm)
          rw [hstep]
          exact hw
        · intro k hk
          by_cases hki : k = i
          · subst hki
            right; right
            simp [raceStep, hai, hst, hrc, Function.update_same]
          · have hstep : (raceStep now s (.upd i)).att k = s.att k :=
              raceStep_att_other now s (.upd i) k (fun hik => hki (hik.symm ▸ rfl))
            rw [hstep]
            exact hothers k hk

/-- Whole runs preserve the race invariant. -/
theorem raceInv_run (now : Nat) (S0 : List Job) (j : Job)
    (hpend : S0.filter (fun x => x.status.isPending) = [j])
    (s : RaceState) (hinv : RaceInv now S0 j s) (sched : List CAction) :
    RaceInv now S0 j (raceRun now s sched) := by
  induction sched generalizing s with
  | nil => exact hinv
  | cons a l ih => exact ih (raceStep now s a) (raceInv_step now S0 j hpend s hinv a)

/-- C1: for every number N of concurrent claim attempts, every
interleaving of their SELECT and conditional-UPDATE statements over a
table whose only pending row is j, exactly one attempt finishes with the
claimed row — it alone observes the pending→processing transition, which
is committed in the final table — and every other attempt finishes with
"no job"; a lost race surfaces as None, never as an error. -/
theorem C1_exactly_one_claim (S0 : List Job) (j : Job) (N now : Nat)
    (sched : List CAction)
    (hpend : S0.filter (fun x => x.status.isPending) = [j])
    (hN : 0 < N) (hs : ValidSched N sched) :
    ∃ w, w < N ∧
      (raceRun now (raceInit S0) sched).att w = .done (some (j.id, j.text)) ∧
      (∀ i, i < N → i ≠ w →
        (raceRun now (raceInit S0) sched).att i = .done none) ∧
      (raceRun now (raceInit S0) sched).store = (updateClaim S0 j.id now).1 := by
  have hinv0 : RaceInv now S0 j (raceInit S0) :=
    Or.inl ⟨rfl, fun i => Or.inl rfl⟩
  have hinvF := raceInv_run now S0 j hpend (raceInit S0) hinv0 sched
  have hdone : ∀ i, i < N →
      ∃ r, (raceRun now (raceInit S0) sched).att i = .done r :=
    fun i hi => sched_done now (raceInit S0) sched i
      (hs.2 i (List.mem_range.mpr hi))
  cases hinvF with
  | inl hA =>
    obtain ⟨r, hr⟩ := hdone 0 hN
    rcases hA.2 0 with h | h <;> rw [h] at hr <;> exact absurd hr (by simp)
  | inr hB =>
    obtain ⟨hstore, w, hw, hothers⟩ := hB
    have hwN : w < N := by
      by_contra hge
      have huntouched : (raceRun now (raceInit S0) sched).att w
          = (raceInit S0).att w := by
        refine raceRun_att_other now (raceInit S0) sched w ?_
        intro a ha hEq
        exact hge (hEq ▸ hs.1 a ha)
      rw [huntouched] at hw
      exact absurd hw (by simp [raceInit])
    refine ⟨w, hwN, hw, ?_, hstore⟩
    intro i hi hne
    obtain ⟨r, hr⟩ := hdone i hi
    rcases hothers i hne with h | h | h
    · rw [h] at hr
      exact absurd hr (by simp)
    · rw [h] at hr
      exact absurd hr (by simp)
    · exact h

/-- C1 witness: two concurrent claimants over one pending row, both
selecting before either updates; exactly one wins. -/
theorem C1_witness :
    ∃ w, w < 2 ∧
      (raceRun 3 (raceInit storeC1) schedC1).att w
        = .done (some (jC1.id, jC1.text)) ∧
      (∀ i, i < 2 → i ≠ w →
        (raceRun 3 (raceInit storeC1) schedC1).att i = .done none) ∧
      (raceRun 3 (raceInit storeC1) schedC1).store
        = (updateClaim storeC1 jC1.id 3).1 :=
  C1_exactly_one_claim storeC1 jC1 2 3 schedC1 (by decide) (by decide)
    (by unfold ValidSched; decide)

end Glados
